import Mathlib

/-!
Verification of the causal-inference engine of `kg_agent`
(`src/kg_agent/extensions/causal_reasoning.py`, class `CausalReasoningStrategy`).

The Python code is shallowly embedded below: dictionaries become association
lists that preserve insertion order, Python floats become `ℚ`, and the
fallible graph builder (whose tuple unpacking of `rel_key.split('_')` can
raise `ValueError`) becomes an `Except`-valued function.  Numeric constants
`0.8`, `0.7`, `0.3`, `0.5`, `0.1`, `0.9` from the source appear as the exact
rationals `4/5`, `7/10`, `3/10`, `1/2`, `1/10`, `9/10`.
-/

namespace KGAgent

/-- An edge of the causal graph, as built by `_build_causal_graph`:
`{'source': …, 'target': …, 'weight': …, 'type': …}` (the `evidence` list is
carried through by the code but read by none of the analysis functions, so it
is omitted here). -/
structure Edge where
  source : String
  target : String
  weight : ℚ
  etype : String
deriving DecidableEq, Repr

/-- The causal graph: `nodes` models the keys of the Python node dictionary in
insertion order (the per-node property/temporal payloads are read by no
analysis function and are omitted), `edges` the edge list. -/
structure CausalGraph where
  nodes : List String
  edges : List Edge
deriving DecidableEq, Repr

/-- A relation record of the input subgraph: `{'type': …, 'strength': …}`.
Both fields are optional because the code reads them with `.get`. -/
structure RelData where
  rtype : Option String
  strength : Option ℚ
deriving DecidableEq, Repr

/-- Python `dict` key insertion: a repeated key keeps its first position. -/
def insertKey (ks : List String) (k : String) : List String :=
  if k ∈ ks then ks else ks ++ [k]

/-- The key list of a Python `dict` populated from `entities` in order. -/
def dictKeys (entities : List String) : List String :=
  entities.foldl insertKey []

/-- Auxiliary worker for `splitUnderscore`, structurally recursive over the
character list; `acc` holds the current piece reversed. -/
def splitUnderscoreAux : List Char → List Char → List (List Char)
  | [], acc => [acc.reverse]
  | c :: cs, acc =>
      if c = '_' then acc.reverse :: splitUnderscoreAux cs []
      else splitUnderscoreAux cs (c :: acc)

/-- Python `s.split('_')`: split on every underscore, keeping empty pieces
(`''.split('_') == ['']`, `'a_'.split('_') == ['a', '']`). -/
def splitUnderscore (s : String) : List String :=
  (splitUnderscoreAux s.toList []).map (fun cs => String.mk cs)

/-- The edge-building loop of `_build_causal_graph` (lines 124–135): for each
relation in insertion order whose `type` is `'causal'`, the key is unpacked by
`source, target = rel_key.split('_')`; a key that does not split into exactly
two pieces raises `ValueError`, modelled as `Except.error`.  The weight is
`rel_data.get('strength', 0.5)`. -/
def buildEdges : List (String × RelData) → Except String (List Edge)
  | [] => .ok []
  | (key, rd) :: rest =>
      if rd.rtype = some "causal" then
        match splitUnderscore key with
        | [s, t] =>
            match buildEdges rest with
            | .ok es => .ok (⟨s, t, rd.strength.getD (1/2), "causal"⟩ :: es)
            | .error m => .error m
        | _ => .error "ValueError: rel_key.split into two names failed"
      else buildEdges rest

/-- Embeds `_build_causal_graph`: nodes from the requested entity list (a Python dict,
so duplicates collapse to their first position), edges from the causal
relations of the subgraph.  The `ValueError` of the unpacking propagates out of
the builder (in `reason` it is caught by the top-level handler, which then
returns the error result with `status: 'failed'`). -/
def buildCausalGraph (entities : List String) (relations : List (String × RelData)) :
    Except String CausalGraph :=
  match buildEdges relations with
  | .ok es => .ok ⟨dictKeys entities, es⟩
  | .error m => .error m

/-- A path record appended by `_dfs_causal_paths`:
`{'path': …, 'length': len(path), 'total_strength': …, 'direct': len(path) == 2}`. -/
structure PathRec where
  path : List String
  length : Nat
  total_strength : ℚ
  direct : Bool
deriving DecidableEq, Repr

/-- Embeds `_calculate_path_strength`: the running product over consecutive pairs of
the path of the weight of the first edge matching that pair (a pair with no
matching edge contributes nothing — the inner `for`/`break` simply finds no
edge). -/
def pathStrength (edges : List Edge) : List String → ℚ
  | s :: t :: rest =>
      (match edges.find? (fun e => e.source == s && e.target == t) with
       | some e => e.weight
       | none => 1) * pathStrength edges (t :: rest)
  | _ => 1

/-- Embeds `_dfs_causal_paths`: depth-first search from `current`, guarded by
`depth > self.max_depth or current in visited`.  Since `path` and `visited`
are pushed and popped in lockstep, `visited` always holds exactly the nodes of
`path`, so the embedding keeps only `path`.  The `depth` counter is replaced by
the remaining fuel `max_depth + 1 - depth`; `fuel = 0` is exactly
`depth > max_depth`. -/
def dfsCausalPaths (edges : List Edge) (target : String) :
    Nat → String → List String → List PathRec
  | 0, _, _ => []
  | fuel + 1, current, path =>
      if current ∈ path then []
      else
        (if current = target ∧ 1 < (path ++ [current]).length then
          [{ path := path ++ [current], length := (path ++ [current]).length,
             total_strength := pathStrength edges (path ++ [current]),
             direct := (path ++ [current]).length == 2 }]
        else []) ++
          (edges.filter (fun e => e.source == current && e.etype == "causal")).flatMap
            (fun e => dfsCausalPaths edges target fuel e.target (path ++ [current]))

/-- Stable insertion of a path record into a list sorted by descending
`total_strength`: the record goes in front of the first one that is not
stronger.  Under the right fold below the inserted record precedes every
equal-strength record discovered after it, reproducing the stability of
Python's sort. -/
def insertDesc (x : PathRec) : List PathRec → List PathRec
  | [] => [x]
  | y :: ys =>
      if y.total_strength ≤ x.total_strength then x :: y :: ys
      else y :: insertDesc x ys

/-- Python's stable `paths.sort(key=λp. p['total_strength'], reverse=True)`:
a stable sort by descending strength (records of equal strength keep their
discovery order). -/
def sortByStrengthDesc (l : List PathRec) : List PathRec :=
  l.foldr insertDesc []

/-- Embeds `_identify_causal_paths`: run the DFS from the cause with `path = []`,
`visited = ∅`, `depth = 0` (fuel `max_depth + 1`), then sort by descending
strength. -/
def identifyCausalPaths (g : CausalGraph) (maxDepth : Nat) (cause effect : String) :
    List PathRec :=
  sortByStrengthDesc (dfsCausalPaths g.edges effect (maxDepth + 1) cause [])

/-- The record returned by `_calculate_causal_strength`.  In the no-path branch
the Python dict carries only `overall_strength` (0.0) and `path_strengths`
(`[]`); the two absent keys are modelled as `0`. -/
structure StrengthResult where
  overall_strength : ℚ
  direct_strength : ℚ
  indirect_strength : ℚ
  path_strengths : List (List String × ℚ)
deriving DecidableEq, Repr

/-- Python `max` over a nonempty list (the `[]` case is unreachable in the
code, which guards with `if direct_paths`). -/
def listMax : List ℚ → ℚ
  | [] => 0
  | x :: xs => xs.foldl max x

/-- Embeds `_calculate_causal_strength`: `direct_strength` is the maximum strength of
the direct (length-2) paths, `indirect_strength` the sum over non-direct paths
of `strength * 0.8 ^ (length - 2)`, and
`overall_strength = min(direct + indirect * 0.3, 1.0)`. -/
def calculateCausalStrength (causalPaths : List PathRec) : StrengthResult :=
  if causalPaths = [] then ⟨0, 0, 0, []⟩
  else
    let directPaths := causalPaths.filter (fun p => p.direct)
    let maxDirect := if directPaths = [] then 0
      else listMax (directPaths.map (fun p => p.total_strength))
    let indirect :=
      ((causalPaths.filter (fun p => !p.direct)).map
        (fun p => p.total_strength * (4/5 : ℚ) ^ (p.length - 2))).sum
    ⟨min (maxDirect + indirect * (3/10)) 1, maxDirect, indirect,
      causalPaths.map (fun p => (p.path, p.total_strength))⟩

/-- Embeds `_has_causal_edge`: the first edge from `source` to `target`, if any (the
code checks only the endpoints, not the edge's `type`). -/
def hasCausalEdge (g : CausalGraph) (source target : String) : Option Edge :=
  g.edges.find? (fun e => e.source == source && e.target == target)

/-- A confounder record of `_identify_confounders`. -/
structure Confounder where
  varName : String
  ctype : String
  effect_on_cause : ℚ
  effect_on_effect : ℚ
  needs_adjustment : Bool
deriving DecidableEq, Repr

/-- Embeds `_identify_confounders`: with fewer than two entities the list is empty;
otherwise `cause, effect = entities[0], entities[1]` and every other node of
the graph's node mapping with an edge to both of them yields a record carrying
those two edges' weights and `needs_adjustment = True`. -/
def identifyConfounders (g : CausalGraph) (entities : List String) :
    List Confounder :=
  match entities with
  | cause :: effect :: _ =>
      g.nodes.filterMap (fun node =>
        if node = cause ∨ node = effect then none
        else
          match hasCausalEdge g node cause, hasCausalEdge g node effect with
          | some toCause, some toEffect =>
              some ⟨node, "confounder", toCause.weight, toEffect.weight, true⟩
          | _, _ => none)
  | _ => []

/-- Embeds `_calculate_direct_effect`: `sum(edge['weight'] * value)` over the edges
leaving `variableId`. -/
def calculateDirectEffect (g : CausalGraph) (variableId : String) (value : ℚ) : ℚ :=
  ((g.edges.filter (fun e => e.source == variableId)).map
    (fun e => e.weight * value)).sum

/-- Python `effects[key] = value` on a dict rendered as an association list:
an existing key keeps its position and gets the new value, a new key is
appended. -/
def dictInsert (d : List (String × ℚ)) (k : String) (v : ℚ) : List (String × ℚ) :=
  if d.any (fun kv => kv.1 == k) then
    d.map (fun kv => if kv.1 == k then (k, v) else kv)
  else d ++ [(k, v)]

/-- Association-list lookup, Python `effects[key]`. -/
def dictLookup (d : List (String × ℚ)) (k : String) : Option ℚ :=
  (d.find? (fun kv => kv.1 == k)).map (fun kv => kv.2)

/-- Embeds `_calculate_indirect_effects`: the nested loop over all two-hop chains
`variableId → mediator → downstream`, writing
`effects[f"{variableId}->{mediator}->{downstream}"] = w1 * w2 * value`
into the dict (later chains with the same key overwrite earlier ones). -/
def calculateIndirectEffects (g : CausalGraph) (variableId : String) (value : ℚ) :
    List (String × ℚ) :=
  (g.edges.filter (fun e => e.source == variableId)).foldl (fun eff e1 =>
    (g.edges.filter (fun e => e.source == e1.target)).foldl (fun eff2 e2 =>
      dictInsert eff2 (variableId ++ "->" ++ e1.target ++ "->" ++ e2.target)
        (e1.weight * e2.weight * value)) eff) []

/-- The record returned by `_analyze_intervention` (minus the echoed
`target_variable` / `intervention_value` inputs). -/
structure InterventionResult where
  direct_effect : ℚ
  indirect_effects : List (String × ℚ)
  total_effect : ℚ
  confidence : ℚ
deriving DecidableEq, Repr

/-- Embeds `_analyze_intervention` for a present intervention spec:
`total_effect = direct_effect + sum(indirect_effects.values()) * 0.7` and
`confidence = min(0.9, out_degree * 0.3)` (from
`_calculate_intervention_confidence`). -/
def analyzeIntervention (g : CausalGraph) (variableId : String) (value : ℚ) :
    InterventionResult :=
  let d := calculateDirectEffect g variableId value
  let ind := calculateIndirectEffects g variableId value
  ⟨d, ind, d + (ind.map (fun kv => kv.2)).sum * (7/10),
    min (9/10) (((g.edges.filter (fun e => e.source == variableId)).length : ℚ) * (3/10))⟩

/-- Embeds `_predict_outcome`: `value * 0.8 + np.random.normal(0, 0.1)`.  The random
draw is not seedable or disableable in the code; it is surfaced here as the
explicit argument `noise`, one fresh draw per call. -/
def predictOutcome (value noise : ℚ) : ℚ :=
  value * (4/5) + noise

/-- The record returned by `_counterfactual_analysis`. -/
structure CounterfactualResult where
  factual_outcome : ℚ
  counterfactual_outcome : ℚ
  individual_treatment_effect : ℚ
  confidence : ℚ
deriving DecidableEq, Repr

/-- Embeds `_counterfactual_analysis` for a present counterfactual spec: two calls to
`_predict_outcome` (hence two independent noise draws `noise1`, `noise2`),
`individual_treatment_effect` their difference, and the fixed confidence `0.7`
of `_calculate_counterfactual_confidence`. -/
def counterfactualAnalysis (originalValue counterfactualValue noise1 noise2 : ℚ) :
    CounterfactualResult :=
  let factual := predictOutcome originalValue noise1
  let cf := predictOutcome counterfactualValue noise2
  ⟨factual, cf, cf - factual, 7/10⟩

/-- `np.mean` on a nonempty list (the code guards the empty case itself). -/
def npMean (xs : List ℚ) : ℚ :=
  xs.sum / (xs.length : ℚ)

/-- Embeds `_calculate_overall_confidence`.  Its `results` argument holds the path
list, the strength dict and the confounder list; `strength = none` models a
missing or empty (falsy) strength dict.  The mean-path-strength factor is
pushed only when the path list is nonempty and the strength factor only when
the dict is truthy, but the confounder factor
`max(1.0 - 0.1 * len(confounders), 0.1)` is pushed unconditionally. -/
def calculateOverallConfidence (paths : List PathRec)
    (strength : Option StrengthResult) (confounders : List Confounder) : ℚ :=
  let f1 : List ℚ :=
    if paths = [] then [] else [npMean (paths.map (fun p => p.total_strength))]
  let f2 : List ℚ :=
    match strength with
    | some s => [s.overall_strength]
    | none => []
  let f3 : List ℚ := [max (1 - (confounders.length : ℚ) * (1/10)) (1/10)]
  let factors := f1 ++ f2 ++ f3
  if factors = [] then 0 else npMean factors

/-! Concrete instances used by the theorems below. -/

/-- The entity list of `example_usage` in the source file. -/
def exampleEntities : List String :=
  ["monetary_policy", "inflation_rate", "economic_growth"]

/-- The `relations` record of `example_usage` in the source file. -/
def exampleRelations : List (String × RelData) :=
  [("monetary_policy_inflation_rate", ⟨some "causal", some (7/10)⟩),
   ("monetary_policy_economic_growth", ⟨some "causal", some (1/2)⟩),
   ("economic_growth_inflation_rate", ⟨some "causal", some (2/5)⟩)]

/-- Edges of the four-node scenario `A→B`(0.8), `B→C`(0.7), `C→D`(0.6),
`A→D`(0.3). -/
def edgesABCD : List Edge :=
  [⟨"A", "B", 4/5, "causal"⟩, ⟨"B", "C", 7/10, "causal"⟩,
   ⟨"C", "D", 3/5, "causal"⟩, ⟨"A", "D", 3/10, "causal"⟩]

/-- The four-node scenario graph. -/
def gABCD : CausalGraph := ⟨["A", "B", "C", "D"], edgesABCD⟩

/-- A graph with the single negative-weight causal edge `A→B`(−0.5). -/
def gNeg : CausalGraph := ⟨["A", "B"], [⟨"A", "B", -1/2, "causal"⟩]⟩

/-- The graph the builder produces from entity list `["A"]` and the single
causal relation keyed `"B_C"`. -/
def gBC : CausalGraph := ⟨["A"], [⟨"B", "C", 3/5, "causal"⟩]⟩

/-- Graph for the confounder mismatch: entities `[A,B,C,Z]`, causal edges
`Z→B`(0.5) and `Z→C`(0.4). -/
def gABCZ : CausalGraph :=
  ⟨["A", "B", "C", "Z"], [⟨"Z", "B", 1/2, "causal"⟩, ⟨"Z", "C", 2/5, "causal"⟩]⟩

/-- The confounder scenario: nodes `{X,Y,Z}`, edges `Z→X`(0.5), `Z→Y`(0.4),
`X→Y`(0.3). -/
def gXYZ : CausalGraph :=
  ⟨["X", "Y", "Z"],
   [⟨"Z", "X", 1/2, "causal"⟩, ⟨"Z", "Y", 2/5, "causal"⟩, ⟨"X", "Y", 3/10, "causal"⟩]⟩

/-- A two-node graph with the mutual edges `V→M`(0.5) and `M→V`(0.4). -/
def gVM : CausalGraph :=
  ⟨["V", "M"], [⟨"V", "M", 1/2, "causal"⟩, ⟨"M", "V", 2/5, "causal"⟩]⟩

/-- A sample path record (direct path `A→B` of strength 0.5). -/
def pathAB : PathRec := ⟨["A", "B"], 2, 1/2, true⟩

/-- A sample strength record. -/
def strengthAB : StrengthResult := ⟨1/2, 1/2, 0, [(["A", "B"], 1/2)]⟩

end KGAgent

namespace KGAgent

/-! Helper lemmas about the sort and the depth-first search. -/

theorem mem_insertDesc {x y : PathRec} : ∀ {l : List PathRec},
    y ∈ insertDesc x l ↔ y = x ∨ y ∈ l
  | [] => by simp [insertDesc]
  | z :: zs => by
      rw [insertDesc]
      split
      · simp
      · simp [mem_insertDesc (l := zs)]
        tauto

theorem mem_sortByStrengthDesc {y : PathRec} : ∀ {l : List PathRec},
    y ∈ sortByStrengthDesc l ↔ y ∈ l
  | [] => Iff.rfl
  | z :: zs => by
      rw [sortByStrengthDesc, List.foldr_cons]
      rw [show zs.foldr insertDesc [] = sortByStrengthDesc zs from rfl] at *
      rw [mem_insertDesc, mem_sortByStrengthDesc (l := zs)]
      simp

/-- Every record produced by the DFS carries a duplicate-free path of at most
`path.length + fuel` nodes, provided the accumulated `path` is itself
duplicate-free. -/
theorem dfs_nodup_length {edges : List Edge} {target : String} :
    ∀ (fuel : Nat) (current : String) (path : List String), path.Nodup →
      ∀ p ∈ dfsCausalPaths edges target fuel current path,
        p.path.Nodup ∧ p.path.length ≤ path.length + fuel := by
  intro fuel
  induction fuel with
  | zero => intro current path _ p hp; simp [dfsCausalPaths] at hp
  | succ n ih =>
      intro current path hnd p hp
      rw [dfsCausalPaths] at hp
      by_cases hcur : current ∈ path
      · simp [hcur] at hp
      · rw [if_neg hcur] at hp
        simp only [List.mem_append, List.mem_flatMap] at hp
        have hnd2 : (path ++ [current]).Nodup := by
          rw [List.nodup_append]
          refine ⟨hnd, List.nodup_singleton _, ?_⟩
          intro x hx hx'
          rw [List.mem_singleton] at hx'
          exact hcur (hx' ▸ hx)
        rcases hp with hp | ⟨e, _, hp⟩
        · split at hp
          · rw [List.mem_singleton] at hp
            subst hp
            refine ⟨hnd2, ?_⟩
            simp only [List.length_append, List.length_singleton]
            omega
          · simp at hp
        · have := ih e.target (path ++ [current]) hnd2 p hp
          refine ⟨this.1, ?_⟩
          have h2 := this.2
          simp at h2
          omega

/-- Once the target sits on the accumulated path, the DFS can append no
further record: every hit would need the target as `current`, which the
visited check rejects. -/
theorem dfs_eq_nil_of_target_mem {edges : List Edge} {target : String} :
    ∀ (fuel : Nat) (current : String) (path : List String), target ∈ path →
      dfsCausalPaths edges target fuel current path = [] := by
  intro fuel
  induction fuel with
  | zero => intro current path _; rfl
  | succ n ih =>
      intro current path hmem
      rw [dfsCausalPaths]
      by_cases hcur : current ∈ path
      · rw [if_pos hcur]
      · rw [if_neg hcur]
        have hne : ¬(current = target ∧ 1 < (path ++ [current]).length) := by
          rintro ⟨rfl, -⟩; exact hcur hmem
        rw [if_neg hne, List.nil_append]
        apply List.flatMap_eq_nil_iff.mpr
        intro e _
        exact ih e.target (path ++ [current]) (by simp [hmem])

/-- A search whose source equals its target returns nothing. -/
theorem dfs_self_eq_nil (edges : List Edge) (target : String) (fuel : Nat) :
    dfsCausalPaths edges target fuel target [] = [] := by
  cases fuel with
  | zero => rfl
  | succ n =>
      rw [dfsCausalPaths]
      rw [if_neg (List.not_mem_nil target), if_neg (by simp), List.nil_append]
      apply List.flatMap_eq_nil_iff.mpr
      intro e _
      exact dfs_eq_nil_of_target_mem n e.target [target] (by simp)

/-- C1: the claim says a relation whose composite key cannot be split into
exactly two entity ids is skipped and graph construction continues without
raising.  In the code `source, target = rel_key.split('_')` raises
`ValueError` on such a key, so the builder fails on the very relations of the
source file's own `example_usage` (whose keys all have four underscore-split
pieces); `reason` then catches the exception and returns the error result with
`status: 'failed'`, not a normal analysis. -/
theorem c1_malformed_key_raises :
    buildCausalGraph exampleEntities exampleRelations
      = .error "ValueError: rel_key.split into two names failed" := by
  simp [buildCausalGraph, buildEdges, exampleEntities, exampleRelations,
    splitUnderscore, splitUnderscoreAux]

/-- C2 counterexample: on the `{A,B,C,D}` scenario the code computes
`indirect_strength = 0.336 * 0.8^2 = 0.21504` (the exponent is
`length − 2 = 4 − 2`), not the claimed `0.336 * 0.8^1 = 0.2688`. -/
theorem c2_counterexample :
    (calculateCausalStrength (identifyCausalPaths gABCD 3 "A" "D")).indirect_strength
        = 672/3125
    ∧ (calculateCausalStrength (identifyCausalPaths gABCD 3 "A" "D")).indirect_strength
        ≠ 2688/10000 := by
  constructor <;>
  · simp [identifyCausalPaths, dfsCausalPaths, gABCD, edgesABCD, pathStrength,
      sortByStrengthDesc, insertDesc, calculateCausalStrength, listMax]
    norm_num
    rw [if_neg (List.cons_ne_nil _ _)]
    try norm_num

/-- C2 amended: on the `{A,B,C,D}` scenario with cause `A`, effect `D` and
`max_depth = 3`, the enumerator returns exactly the indirect path `[A,B,C,D]`
of strength `0.336` and the direct path `[A,D]` of strength `0.3` (in that,
descending-strength, order), and the aggregator computes
`direct_strength = 0.3`, `indirect_strength = 0.336 * 0.8^2 = 0.21504` and
`overall_strength = min(0.3 + 0.3 * 0.21504, 1.0) = 0.364512`. -/
theorem c2_amended :
    identifyCausalPaths gABCD 3 "A" "D" =
      [{ path := ["A", "B", "C", "D"], length := 4, total_strength := 42/125,
         direct := false },
       { path := ["A", "D"], length := 2, total_strength := 3/10, direct := true }]
    ∧ calculateCausalStrength (identifyCausalPaths gABCD 3 "A" "D") =
        ⟨11391/31250, 3/10, 672/3125,
         [(["A", "B", "C", "D"], 42/125), (["A", "D"], 3/10)]⟩ := by
  constructor
  · simp [identifyCausalPaths, dfsCausalPaths, gABCD, edgesABCD, pathStrength,
      sortByStrengthDesc, insertDesc]
    norm_num
  · simp [identifyCausalPaths, dfsCausalPaths, gABCD, edgesABCD, pathStrength,
      sortByStrengthDesc, insertDesc, calculateCausalStrength, listMax]
    norm_num
    exact List.cons_ne_nil _ _

/-- C4 counterexample: from entity list `["A"]` and the single causal relation
keyed `"B_C"`, the builder succeeds and keeps the edge `B→C` although neither
endpoint is in the node mapping `["A"]` — edges with missing endpoints are not
dropped. -/
theorem c4_counterexample :
    buildCausalGraph ["A"] [("B_C", ⟨some "causal", some (3/5)⟩)] = .ok gBC
    ∧ (⟨"B", "C", 3/5, "causal"⟩ : Edge) ∈ gBC.edges
    ∧ "B" ∉ gBC.nodes ∧ "C" ∉ gBC.nodes := by
  refine ⟨?_, by simp [gBC], by simp [gBC], by simp [gBC]⟩
  simp [buildCausalGraph, buildEdges, splitUnderscore, splitUnderscoreAux,
    dictKeys, insertKey, gBC]

/-- C5 counterexample: with entities `[A,B,C,Z]` and hypothesis cause `B`,
effect `C`, node `Z` has causal edges to both `B` and `C`, yet the confounder
list is empty: the code reads its cause/effect pair from `entities[0]`,
`entities[1]` (here `A`, `B`), not from the hypothesis. -/
theorem c5_counterexample :
    identifyConfounders gABCZ ["A", "B", "C", "Z"] = []
    ∧ (hasCausalEdge gABCZ "Z" "B").isSome
    ∧ (hasCausalEdge gABCZ "Z" "C").isSome
    ∧ "Z" ∈ gABCZ.nodes ∧ "Z" ≠ "B" ∧ "Z" ≠ "C" := by
  refine ⟨?_, by simp [hasCausalEdge, gABCZ], by simp [hasCausalEdge, gABCZ],
    by simp [gABCZ], by simp, by simp⟩
  simp [identifyConfounders, hasCausalEdge, gABCZ]

/-- C6 counterexample: on the single negative direct edge `A→B`(−0.5) the
aggregated `overall_strength` is `min(−0.5 + 0.3 * 0, 1.0) = −0.5`, outside
the claimed unit interval — there is no lower clamp at 0. -/
theorem c6_counterexample :
    (calculateCausalStrength (identifyCausalPaths gNeg 3 "A" "B")).overall_strength
        = -1/2
    ∧ (calculateCausalStrength (identifyCausalPaths gNeg 3 "A" "B")).overall_strength
        < 0 := by
  constructor <;>
  · simp [identifyCausalPaths, dfsCausalPaths, gNeg, pathStrength,
      sortByStrengthDesc, insertDesc, calculateCausalStrength, listMax]
    norm_num

/-- C8 counterexample: with no paths, a missing/empty strength record and no
confounders, the code's confidence is `mean([max(1.0 − 0.0, 0.1)]) = 1.0`,
not the claimed `0.0`: the confounder factor is appended unconditionally, so
the factor list is never empty. -/
theorem c8_counterexample :
    calculateOverallConfidence [] none [] = 1
    ∧ (1 : ℚ) ≠ 0 := by
  constructor
  · simp [calculateOverallConfidence, npMean]
    norm_num
  · norm_num

/-- C9: the claim says the default mode is noise-free and deterministic with
`individual_treatment_effect = 0.8 * (counterfactual_value − original_value)`.
The code unconditionally adds a fresh `np.random.normal(0, 0.1)` draw in each
of the two `_predict_outcome` calls (modelled by the explicit `noise1`,
`noise2` arguments); with the distinct draws `0` and `0.1` on the example's
spec (original `0.01`, counterfactual `0.03`) the treatment effect is `0.116`,
not `0.8 * 0.02 = 0.016`.  The fixed confidence `0.7` does hold. -/
theorem c9_noise_breaks_determinism :
    (counterfactualAnalysis (1/100) (3/100) 0 (1/10)).individual_treatment_effect
        = 116/1000
    ∧ (counterfactualAnalysis (1/100) (3/100) 0 (1/10)).individual_treatment_effect
        ≠ (4/5) * (3/100 - 1/100)
    ∧ (counterfactualAnalysis (1/100) (3/100) 0 (1/10)).confidence = 7/10 := by
  refine ⟨?_, ?_, ?_⟩ <;> norm_num [counterfactualAnalysis, predictOutcome]

/-- C3: every path returned by the enumerator has at most `max_depth + 1`
nodes and no repeated node, and a query whose source equals its target
returns no path at all. -/
theorem c3_enumerator_bounded_and_simple (g : CausalGraph) (maxDepth : Nat)
    (cause effect : String) :
    (∀ p ∈ identifyCausalPaths g maxDepth cause effect,
        p.path.length ≤ maxDepth + 1 ∧ p.path.Nodup)
    ∧ (cause = effect → identifyCausalPaths g maxDepth cause effect = []) := by
  constructor
  · intro p hp
    rw [identifyCausalPaths, mem_sortByStrengthDesc] at hp
    have h := dfs_nodup_length (maxDepth + 1) cause [] List.nodup_nil p hp
    exact ⟨by simpa using h.2, h.1⟩
  · rintro rfl
    rw [identifyCausalPaths, dfs_self_eq_nil]
    rfl

/-- C3 witness: a concrete source-equals-target query on the four-node
scenario graph. -/
theorem c3_enumerator_bounded_and_simple_witness :
    identifyCausalPaths gABCD 3 "A" "A" = [] :=
  (c3_enumerator_bounded_and_simple gABCD 3 "A" "A").2 rfl

/-- C6 amended: for every path list,
`overall_strength = min(direct_strength + 0.3 × indirect_strength, 1.0)`, and
the result is bounded above by 1 — but it is not clamped below at 0 (with
negative edge weights it can be negative, see the counterexample). -/
theorem c6_amended_no_lower_clamp (causalPaths : List PathRec) :
    (calculateCausalStrength causalPaths).overall_strength
      = min ((calculateCausalStrength causalPaths).direct_strength
          + (3/10) * (calculateCausalStrength causalPaths).indirect_strength) 1
    ∧ (calculateCausalStrength causalPaths).overall_strength ≤ 1 := by
  unfold calculateCausalStrength
  split
  · simp
  · constructor
    · simp only []
      congr 1
      ring
    · exact min_le_right _ _

/-- Scaling an edge-indexed `dictInsert` by a constant factor in the value
slot commutes with mapping that factor over the accumulated dict. -/
theorem dictInsert_map_scale (c : ℚ) (k : String) (v : ℚ) :
    ∀ (d : List (String × ℚ)),
      dictInsert (d.map (fun kv => (kv.1, c * kv.2))) k (c * v)
        = (dictInsert d k v).map (fun kv => (kv.1, c * kv.2)) := by
  intro d
  unfold dictInsert
  have hany : (d.map (fun kv => (kv.1, c * kv.2))).any (fun kv => kv.1 == k)
      = d.any (fun kv => kv.1 == k) := by
    rw [List.any_map]
    rfl
  rw [hany]
  split
  · rw [List.map_map, List.map_map]
    apply List.map_congr_left
    intro kv _
    by_cases hk : kv.1 == k
    · simp [Function.comp, hk]
    · simp [Function.comp, hk]
  · simp

/-- One `foldl` layer of `dictInsert` writes commutes with value scaling. -/
theorem foldl_dictInsert_scale (c : ℚ) (kf : Edge → String) (vf : Edge → ℚ) :
    ∀ (es : List Edge) (acc : List (String × ℚ)),
      es.foldl (fun eff e => dictInsert eff (kf e) (c * vf e))
          (acc.map (fun kv => (kv.1, c * kv.2)))
        = (es.foldl (fun eff e => dictInsert eff (kf e) (vf e)) acc).map
            (fun kv => (kv.1, c * kv.2)) := by
  intro es
  induction es with
  | nil => intro acc; rfl
  | cons e tl ih =>
      intro acc
      rw [List.foldl_cons, List.foldl_cons, dictInsert_map_scale, ih]

/-- The two-hop indirect-effect dict scales linearly in the intervention
value, entry by entry. -/
theorem calculateIndirectEffects_scale (g : CausalGraph) (variableId : String)
    (c value : ℚ) :
    calculateIndirectEffects g variableId (c * value)
      = (calculateIndirectEffects g variableId value).map
          (fun kv => (kv.1, c * kv.2)) := by
  unfold calculateIndirectEffects
  have key : ∀ (l1 : List Edge) (acc : List (String × ℚ)),
      l1.foldl (fun eff e1 =>
        (g.edges.filter (fun e => e.source == e1.target)).foldl (fun eff2 e2 =>
          dictInsert eff2 (variableId ++ "->" ++ e1.target ++ "->" ++ e2.target)
            (e1.weight * e2.weight * (c * value))) eff)
          (acc.map (fun kv => (kv.1, c * kv.2)))
        = (l1.foldl (fun eff e1 =>
            (g.edges.filter (fun e => e.source == e1.target)).foldl (fun eff2 e2 =>
              dictInsert eff2 (variableId ++ "->" ++ e1.target ++ "->" ++ e2.target)
                (e1.weight * e2.weight * value)) eff) acc).map
            (fun kv => (kv.1, c * kv.2)) := by
    intro l1
    induction l1 with
    | nil => intro acc; rfl
    | cons e1 tl ih =>
        intro acc
        rw [List.foldl_cons, List.foldl_cons]
        rw [show (fun (eff2 : List (String × ℚ)) (e2 : Edge) =>
              dictInsert eff2 (variableId ++ "->" ++ e1.target ++ "->" ++ e2.target)
                (e1.weight * e2.weight * (c * value)))
            = (fun (eff2 : List (String × ℚ)) (e2 : Edge) =>
              dictInsert eff2 (variableId ++ "->" ++ e1.target ++ "->" ++ e2.target)
                (c * (e1.weight * e2.weight * value))) from by
          funext eff2 e2; ring_nf]
        rw [foldl_dictInsert_scale c
          (fun e2 => variableId ++ "->" ++ e1.target ++ "->" ++ e2.target)
          (fun e2 => e1.weight * e2.weight * value), ih]
  simpa using key (g.edges.filter (fun e => e.source == variableId)) []

/-- C7: the intervention simulation is linear in the intervention value —
doubling the value doubles the direct effect, every individual indirect-effect
entry, and the total effect. -/
theorem c7_intervention_linear (g : CausalGraph) (variableId : String) (value : ℚ) :
    calculateDirectEffect g variableId (2 * value)
        = 2 * calculateDirectEffect g variableId value
    ∧ calculateIndirectEffects g variableId (2 * value)
        = (calculateIndirectEffects g variableId value).map (fun kv => (kv.1, 2 * kv.2))
    ∧ (analyzeIntervention g variableId (2 * value)).direct_effect
        = 2 * (analyzeIntervention g variableId value).direct_effect
    ∧ (analyzeIntervention g variableId (2 * value)).total_effect
        = 2 * (analyzeIntervention g variableId value).total_effect := by
  have hdir : calculateDirectEffect g variableId (2 * value)
      = 2 * calculateDirectEffect g variableId value := by
    unfold calculateDirectEffect
    rw [show (fun (e : Edge) => e.weight * (2 * value))
        = (fun (e : Edge) => 2 * (e.weight * value)) from by funext e; ring]
    rw [List.sum_map_mul_left]
  have hind := calculateIndirectEffects_scale g variableId 2 value
  have hsum : ((calculateIndirectEffects g variableId (2 * value)).map
      (fun kv => kv.2)).sum
      = 2 * ((calculateIndirectEffects g variableId value).map (fun kv => kv.2)).sum := by
    rw [hind, List.map_map]
    rw [show ((fun (kv : String × ℚ) => kv.2) ∘ fun kv => (kv.1, 2 * kv.2))
        = (fun (kv : String × ℚ) => 2 * kv.2) from rfl]
    rw [List.sum_map_mul_left]
  refine ⟨hdir, hind, ?_, ?_⟩
  · simpa [analyzeIntervention] using hdir
  · simp only [analyzeIntervention]
    rw [hdir, hsum]
    ring

/-- Every causal relation of the input whose key splits into exactly two
pieces contributes an edge with exactly those two pieces as endpoints to a
successful `buildEdges` run — with no check that the endpoints name existing
nodes. -/
theorem buildEdges_mem_of_causal :
    ∀ (relations : List (String × RelData)) (es : List Edge)
      (key : String) (rd : RelData) (s t : String),
      (key, rd) ∈ relations → rd.rtype = some "causal" →
      splitUnderscore key = [s, t] → buildEdges relations = .ok es →
      ∃ e ∈ es, e.source = s ∧ e.target = t ∧ e.weight = rd.strength.getD (1/2) := by
  intro relations
  induction relations with
  | nil => intro es key rd s t hmem; simp at hmem
  | cons hd tl ih =>
      intro es key rd s t hmem hc hsplit hok
      obtain ⟨k, r⟩ := hd
      rw [buildEdges] at hok
      rcases List.mem_cons.mp hmem with heq | htl
      · injection heq with h1 h2
        subst h1; subst h2
        rw [if_pos hc, hsplit] at hok
        cases hbe : buildEdges tl with
        | ok es2 =>
            rw [hbe] at hok
            simp only [Except.ok.injEq] at hok
            subst hok
            exact ⟨⟨s, t, rd.strength.getD (1/2), "causal"⟩, List.mem_cons_self _ _,
              rfl, rfl, rfl⟩
        | error m => rw [hbe] at hok; simp at hok
      · by_cases hr : r.rtype = some "causal"
        · rw [if_pos hr] at hok
          cases hsp : splitUnderscore k with
          | nil => rw [hsp] at hok; simp at hok
          | cons a rest =>
              cases rest with
              | nil => rw [hsp] at hok; simp at hok
              | cons b rest2 =>
                  cases rest2 with
                  | nil =>
                      rw [hsp] at hok
                      cases hbe : buildEdges tl with
                      | ok es2 =>
                          rw [hbe] at hok
                          simp only [Except.ok.injEq] at hok
                          subst hok
                          obtain ⟨e, he, hprop⟩ := ih es2 key rd s t htl hc hsplit hbe
                          exact ⟨e, List.mem_cons_of_mem _ he, hprop⟩
                      | error m => rw [hbe] at hok; simp at hok
                  | cons c rest3 => rw [hsp] at hok; simp at hok
        · rw [if_neg hr] at hok
          exact ih es key rd s t htl hc hsplit hok

/-- C4 amended: a causal relation whose key splits into exactly two pieces is
always kept as an edge with those pieces as source and target — regardless of
whether they occur among the requested entities or in the node mapping (the
code performs no endpoint check; edges with missing endpoints are kept, as the
counterexample shows). -/
theorem c4_amended_edges_kept_unchecked (entities : List String)
    (relations : List (String × RelData)) (key : String) (rd : RelData)
    (s t : String) (g : CausalGraph)
    (hmem : (key, rd) ∈ relations) (hc : rd.rtype = some "causal")
    (hsplit : splitUnderscore key = [s, t])
    (hok : buildCausalGraph entities relations = .ok g) :
    ∃ e ∈ g.edges, e.source = s ∧ e.target = t ∧ e.weight = rd.strength.getD (1/2) := by
  unfold buildCausalGraph at hok
  cases hbe : buildEdges relations with
  | ok es =>
      rw [hbe] at hok
      simp only [Except.ok.injEq] at hok
      subst hok
      exact buildEdges_mem_of_causal relations es key rd s t hmem hc hsplit hbe
  | error m => rw [hbe] at hok; simp at hok

/-- C4 amended, witness: the `B_C` relation turns into the edge `B→C` of the
graph built from entity list `["A"]`. -/
theorem c4_amended_edges_kept_unchecked_witness :
    ∃ e ∈ gBC.edges, e.source = "B" ∧ e.target = "C"
      ∧ e.weight = (some (3/5) : Option ℚ).getD (1/2) :=
  c4_amended_edges_kept_unchecked ["A"] [("B_C", ⟨some "causal", some (3/5)⟩)]
    "B_C" ⟨some "causal", some (3/5)⟩ "B" "C" gBC (by simp) rfl
    (by simp [splitUnderscore, splitUnderscoreAux])
    (by simp [buildCausalGraph, buildEdges, splitUnderscore, splitUnderscoreAux,
      dictKeys, insertKey, gBC])

/-- C8 amended: the mean-path-strength factor is omitted exactly when the
path list is empty and the strength factor exactly when the strength dict is
missing/empty, but the confounder factor `max(1 − 0.1·count, 0.1)` is appended
unconditionally, so the factor list is never empty.  All four availability
combinations: with neither paths nor strength the confidence is the confounder
factor itself (1.0 with no confounders, never 0.0); with exactly one of the
two present it is the mean of that factor and the confounder factor; with both
present it is the mean of all three. -/
theorem c8_amended_confounder_factor_always :
    (∀ confounders : List Confounder,
        calculateOverallConfidence [] none confounders
          = max (1 - (confounders.length : ℚ) * (1/10)) (1/10))
    ∧ (∀ (s : StrengthResult) (confounders : List Confounder),
        calculateOverallConfidence [] (some s) confounders
          = (s.overall_strength
              + max (1 - (confounders.length : ℚ) * (1/10)) (1/10)) / 2)
    ∧ (∀ (paths : List PathRec) (confounders : List Confounder),
        paths ≠ [] →
          calculateOverallConfidence paths none confounders
            = (npMean (paths.map (fun p => p.total_strength))
                + max (1 - (confounders.length : ℚ) * (1/10)) (1/10)) / 2)
    ∧ (∀ (paths : List PathRec) (s : StrengthResult) (confounders : List Confounder),
        paths ≠ [] →
          calculateOverallConfidence paths (some s) confounders
            = (npMean (paths.map (fun p => p.total_strength)) + s.overall_strength
                + max (1 - (confounders.length : ℚ) * (1/10)) (1/10)) / 3) := by
  refine ⟨?_, ?_, ?_, ?_⟩
  · intro confounders
    simp [calculateOverallConfidence, npMean]
  · intro s confounders
    simp only [calculateOverallConfidence, npMean, if_pos rfl]
    rw [if_neg (by simp)]
    simp
  · intro paths confounders hne
    simp only [calculateOverallConfidence, npMean, if_neg hne]
    rw [if_neg (by simp)]
    simp
  · intro paths s confounders hne
    simp only [calculateOverallConfidence, npMean, if_neg hne]
    rw [if_neg (by simp)]
    simp
    ring

/-- C8 amended, witness: one direct path of strength 0.5 with no confounders
gives confidence `(0.5 + 1)/2` without a strength record and
`(0.5 + 0.5 + 1)/3 = 2/3` with one. -/
theorem c8_amended_confounder_factor_always_witness :
    calculateOverallConfidence [pathAB] none []
      = (npMean ([pathAB].map (fun p => p.total_strength))
          + max (1 - (([] : List Confounder).length : ℚ) * (1/10)) (1/10)) / 2
    ∧ calculateOverallConfidence [pathAB] (some strengthAB) []
      = (npMean ([pathAB].map (fun p => p.total_strength)) + strengthAB.overall_strength
          + max (1 - (([] : List Confounder).length : ℚ) * (1/10)) (1/10)) / 3 :=
  ⟨c8_amended_confounder_factor_always.2.2.1 [pathAB] [] (by simp),
   c8_amended_confounder_factor_always.2.2.2 [pathAB] strengthAB [] (by simp)⟩

/-- C5 amended: the confounder detector reads its cause/effect pair from the
first two task entities (`entities[0]`, `entities[1]`), not from the
hypothesis.  Relative to that pair the list is exactly as described: it
contains precisely the graph nodes distinct from both that have an edge to
each, every record carries the found edges' weights and
`needs_adjustment = true`, and the concrete `{X,Y,Z}` scenario (whose entity
order happens to put the hypothesis pair first) yields exactly the `Z` record
with weights 0.5 and 0.4. -/
theorem c5_amended_entities_based_confounders :
    (∀ (g : CausalGraph) (cause effect : String) (rest : List String) (v : String),
        (∃ r ∈ identifyConfounders g (cause :: effect :: rest), r.varName = v)
          ↔ v ∈ g.nodes ∧ v ≠ cause ∧ v ≠ effect
              ∧ (hasCausalEdge g v cause).isSome ∧ (hasCausalEdge g v effect).isSome)
    ∧ (∀ (g : CausalGraph) (cause effect : String) (rest : List String),
        ∀ r ∈ identifyConfounders g (cause :: effect :: rest),
          r.ctype = "confounder" ∧ r.needs_adjustment = true
          ∧ (∃ ec, hasCausalEdge g r.varName cause = some ec
              ∧ r.effect_on_cause = ec.weight)
          ∧ (∃ ee, hasCausalEdge g r.varName effect = some ee
              ∧ r.effect_on_effect = ee.weight))
    ∧ identifyConfounders gXYZ ["X", "Y", "Z"]
        = [⟨"Z", "confounder", 1/2, 2/5, true⟩] := by
  refine ⟨?_, ?_, ?_⟩
  · intro g cause effect rest v
    constructor
    · rintro ⟨r, hr, hv⟩
      rw [identifyConfounders, List.mem_filterMap] at hr
      obtain ⟨node, hnode, hf⟩ := hr
      by_cases hne : node = cause ∨ node = effect
      · rw [if_pos hne] at hf; cases hf
      · rw [if_neg hne] at hf
        push_neg at hne
        cases hec : hasCausalEdge g node cause with
        | none => rw [hec] at hf; cases hf
        | some ec =>
            cases hee : hasCausalEdge g node effect with
            | none => rw [hec, hee] at hf; cases hf
            | some ee =>
                rw [hec, hee] at hf
                injection hf with hf
                subst hf
                subst hv
                exact ⟨hnode, hne.1, hne.2, by rw [hec]; rfl, by rw [hee]; rfl⟩
    · rintro ⟨hn, hvc, hve, hic, hie⟩
      obtain ⟨ec, hec⟩ := Option.isSome_iff_exists.mp hic
      obtain ⟨ee, hee⟩ := Option.isSome_iff_exists.mp hie
      refine ⟨⟨v, "confounder", ec.weight, ee.weight, true⟩, ?_, rfl⟩
      rw [identifyConfounders, List.mem_filterMap]
      refine ⟨v, hn, ?_⟩
      rw [if_neg (by tauto), hec, hee]
  · intro g cause effect rest r hr
    rw [identifyConfounders, List.mem_filterMap] at hr
    obtain ⟨node, hnode, hf⟩ := hr
    by_cases hne : node = cause ∨ node = effect
    · rw [if_pos hne] at hf; cases hf
    · rw [if_neg hne] at hf
      cases hec : hasCausalEdge g node cause with
      | none => rw [hec] at hf; cases hf
      | some ec =>
          cases hee : hasCausalEdge g node effect with
          | none => rw [hec, hee] at hf; cases hf
          | some ee =>
              rw [hec, hee] at hf
              injection hf with hf
              subst hf
              exact ⟨rfl, rfl, ⟨ec, hec, rfl⟩, ⟨ee, hee, rfl⟩⟩
  · simp [identifyConfounders, hasCausalEdge, gXYZ]

/-- C5 amended, witness: the `Z` record of the `{X,Y,Z}` scenario carries the
found edges' weights and the adjustment flag. -/
theorem c5_amended_entities_based_confounders_witness :
    (Confounder.mk "Z" "confounder" (1/2) (2/5) true).ctype = "confounder"
    ∧ (Confounder.mk "Z" "confounder" (1/2) (2/5) true).needs_adjustment = true
    ∧ (∃ ec, hasCausalEdge gXYZ "Z" "X" = some ec
        ∧ (Confounder.mk "Z" "confounder" (1/2) (2/5) true).effect_on_cause = ec.weight)
    ∧ (∃ ee, hasCausalEdge gXYZ "Z" "Y" = some ee
        ∧ (Confounder.mk "Z" "confounder" (1/2) (2/5) true).effect_on_effect = ee.weight) :=
  c5_amended_entities_based_confounders.2.1 gXYZ "X" "Y" ["Z"]
    ⟨"Z", "confounder", 1/2, 2/5, true⟩
    (by simp [identifyConfounders, hasCausalEdge, gXYZ])

/-! Lookup lemmas for the Python-dict model used by the intervention
simulator. -/

theorem dictLookup_map_update (k : String) (v : ℚ) :
    ∀ (d : List (String × ℚ)),
      dictLookup (d.map (fun kv => if kv.1 == k then (k, v) else kv)) k
        = if d.any (fun kv => kv.1 == k) then some v else none := by
  intro d
  induction d with
  | nil => rfl
  | cons kv tl ih =>
      by_cases hk : kv.1 == k
      · rw [List.map_cons, if_pos hk, List.any_cons, hk, Bool.true_or, if_pos rfl]
        rw [dictLookup]
        simp
      · rw [List.map_cons, if_neg hk, List.any_cons,
          Bool.eq_false_iff.mpr hk, Bool.false_or]
        rw [dictLookup, List.find?_cons_of_neg _ (by simpa using hk)]
        exact ih

theorem dictLookup_map_update_ne (k k' : String) (v : ℚ) (h : k' ≠ k) :
    ∀ (d : List (String × ℚ)),
      dictLookup (d.map (fun kv => if kv.1 == k then (k, v) else kv)) k'
        = dictLookup d k' := by
  intro d
  induction d with
  | nil => rfl
  | cons kv tl ih =>
      by_cases hk : kv.1 == k
      · have hkk' : (k == k') = false := by
          rw [beq_eq_false_iff_ne]
          exact fun hkk => h hkk.symm
        have hkv' : (kv.1 == k') = false := by
          have hkv : kv.1 = k := by simpa using hk
          rw [hkv, beq_eq_false_iff_ne]
          exact fun hkk => h hkk.symm
        simp only [List.map_cons, if_pos hk]
        rw [dictLookup, List.find?_cons_of_neg _ (by simp [hkk']),
          dictLookup, List.find?_cons_of_neg _ (by simp [hkv'])]
        exact ih
      · by_cases hk' : kv.1 == k'
        · simp only [List.map_cons, if_neg hk]
          rw [dictLookup, List.find?_cons_of_pos _ (by simpa using hk'),
            dictLookup, List.find?_cons_of_pos _ (by simpa using hk')]
        · simp only [List.map_cons, if_neg hk]
          rw [dictLookup, List.find?_cons_of_neg _ (by simpa using hk'),
            dictLookup, List.find?_cons_of_neg _ (by simpa using hk')]
          exact ih

theorem dictLookup_dictInsert_self (d : List (String × ℚ)) (k : String) (v : ℚ) :
    dictLookup (dictInsert d k v) k = some v := by
  unfold dictInsert
  split
  · next h => rw [dictLookup_map_update, if_pos h]
  · next h =>
      rw [dictLookup, List.find?_append]
      have hnone : d.find? (fun kv => kv.1 == k) = none := by
        rw [List.find?_eq_none]
        intro kv hkv hbeq
        exact h (List.any_eq_true.mpr ⟨kv, hkv, hbeq⟩)
      rw [hnone]
      simp [List.find?]

theorem dictLookup_dictInsert_ne (d : List (String × ℚ)) (k k' : String) (v : ℚ)
    (h : k' ≠ k) : dictLookup (dictInsert d k v) k' = dictLookup d k' := by
  unfold dictInsert
  split
  · exact dictLookup_map_update_ne k k' v h d
  · rw [dictLookup, List.find?_append]
    have hlast : List.find? (fun kv => kv.1 == k') [(k, v)] = none := by
      have hkk' : (k == k') = false := by
        rw [beq_eq_false_iff_ne]
        exact fun hkk => h hkk.symm
      simp [List.find?, hkk']
    rw [hlast, Option.or_none]
    rfl

/-- If every write of one `dictInsert` fold targeting key `K` writes the value
`x`, and either `K` already maps to `x` or some element of the list writes to
`K`, then `K` maps to `x` afterwards. -/
theorem foldl_dictInsert_lookup (K : String) (x : ℚ) (kf : Edge → String)
    (vf : Edge → ℚ) :
    ∀ (es : List Edge) (acc : List (String × ℚ)),
      (∀ e ∈ es, kf e = K → vf e = x) →
      (dictLookup acc K = some x ∨ ∃ e ∈ es, kf e = K) →
      dictLookup (es.foldl (fun eff e => dictInsert eff (kf e) (vf e)) acc) K
        = some x := by
  intro es
  induction es with
  | nil =>
      rintro acc _ (hacc | ⟨e, he, _⟩)
      · exact hacc
      · exact absurd he (List.not_mem_nil e)
  | cons e tl ih =>
      intro acc hall hstart
      rw [List.foldl_cons]
      by_cases hke : kf e = K
      · apply ih _ (fun e' he' => hall e' (List.mem_cons_of_mem _ he'))
        left
        rw [hall e (List.mem_cons_self _ _) hke, ← hke]
        exact dictLookup_dictInsert_self acc (kf e) x
      · apply ih _ (fun e' he' => hall e' (List.mem_cons_of_mem _ he'))
        rcases hstart with hacc | ⟨e', he', hke'⟩
        · left
          rw [dictLookup_dictInsert_ne acc (kf e) K (vf e) (fun hK => hke hK.symm)]
          exact hacc
        · rcases List.mem_cons.mp he' with rfl | htl
          · exact absurd hke' hke
          · right
            exact ⟨e', htl, hke'⟩

/-- Nested (two-layer) version of `foldl_dictInsert_lookup`, matching the
shape of `_calculate_indirect_effects`. -/
theorem foldl2_dictInsert_lookup (K : String) (x : ℚ) (lf : Edge → List Edge)
    (kf : Edge → Edge → String) (vf : Edge → Edge → ℚ) :
    ∀ (l1 : List Edge) (acc : List (String × ℚ)),
      (∀ e1 ∈ l1, ∀ e2 ∈ lf e1, kf e1 e2 = K → vf e1 e2 = x) →
      (dictLookup acc K = some x ∨ ∃ e1 ∈ l1, ∃ e2 ∈ lf e1, kf e1 e2 = K) →
      dictLookup (l1.foldl (fun eff e1 =>
          (lf e1).foldl (fun eff2 e2 => dictInsert eff2 (kf e1 e2) (vf e1 e2)) eff)
        acc) K = some x := by
  intro l1
  induction l1 with
  | nil =>
      rintro acc _ (hacc | ⟨e, he, _⟩)
      · exact hacc
      · exact absurd he (List.not_mem_nil e)
  | cons e1 tl ih =>
      intro acc hall hstart
      rw [List.foldl_cons]
      have htail : ∀ e1' ∈ tl, ∀ e2 ∈ lf e1', kf e1' e2 = K → vf e1' e2 = x :=
        fun e1' he1' => hall e1' (List.mem_cons_of_mem _ he1')
      rcases hstart with hacc | ⟨e1', he1', e2', he2', hk⟩
      · apply ih _ htail
        left
        exact foldl_dictInsert_lookup K x (kf e1) (vf e1) (lf e1) acc
          (hall e1 (List.mem_cons_self _ _)) (Or.inl hacc)
      · rcases List.mem_cons.mp he1' with rfl | htl
        · apply ih _ htail
          left
          exact foldl_dictInsert_lookup K x (kf e1') (vf e1') (lf e1') acc
            (hall e1' (List.mem_cons_self _ _)) (Or.inr ⟨e2', he2', hk⟩)
        · apply ih _ htail
          right
          exact ⟨e1', htl, e2', he2', hk⟩

/-- C10: the indirect-effect pass of intervention simulation does not exclude
two-hop chains that lead back into the intervened variable: whenever edges
`variable→mediator` (weight w1) and `mediator→variable` (weight w2) exist, the
dict holds an entry keyed `variable->mediator->variable` with value
`w1 * w2 * value` (the uniqueness hypothesis says no other chain writes a
colliding key with a different product, which holds for every graph the
builder can produce, its relation keys being dict keys), and the entry
contributes to `total_effect` through the 0.7-discounted sum. -/
theorem c10_self_loop_indirect_effect (g : CausalGraph)
    (variableId mediator : String) (w1 w2 value : ℚ)
    (he1 : ∃ e ∈ g.edges, e.source = variableId ∧ e.target = mediator ∧ e.weight = w1)
    (he2 : ∃ e ∈ g.edges, e.source = mediator ∧ e.target = variableId ∧ e.weight = w2)
    (huniq : ∀ d1 ∈ g.edges, ∀ d2 ∈ g.edges, d1.source = variableId →
      d2.source = d1.target →
      variableId ++ "->" ++ d1.target ++ "->" ++ d2.target
        = variableId ++ "->" ++ mediator ++ "->" ++ variableId →
      d1.weight * d2.weight = w1 * w2) :
    dictLookup (calculateIndirectEffects g variableId value)
        (variableId ++ "->" ++ mediator ++ "->" ++ variableId)
      = some (w1 * w2 * value)
    ∧ (analyzeIntervention g variableId value).total_effect
        = (analyzeIntervention g variableId value).direct_effect
          + ((calculateIndirectEffects g variableId value).map (fun kv => kv.2)).sum
              * (7/10) := by
  constructor
  · obtain ⟨e1, he1g, hs1, ht1, hw1⟩ := he1
    obtain ⟨e2, he2g, hs2, ht2, hw2⟩ := he2
    unfold calculateIndirectEffects
    apply foldl2_dictInsert_lookup _ _
      (fun e1 => g.edges.filter (fun e => e.source == e1.target))
      (fun e1 e2 => variableId ++ "->" ++ e1.target ++ "->" ++ e2.target)
      (fun e1 e2 => e1.weight * e2.weight * value)
    · intro d1 hd1 d2 hd2 hkey
      rw [List.mem_filter] at hd1 hd2
      rw [huniq d1 hd1.1 d2 hd2.1 (by simpa using hd1.2) (by simpa using hd2.2) hkey]
    · right
      refine ⟨e1, ?_, e2, ?_, ?_⟩
      · rw [List.mem_filter]
        exact ⟨he1g, by simp [hs1]⟩
      · rw [List.mem_filter]
        exact ⟨he2g, by simp [hs2, ht1]⟩
      · rw [ht1, ht2]
  · simp [analyzeIntervention]

/-- C10 witness: on the two-node graph `V→M`(0.5), `M→V`(0.4) with
intervention value 2, the entry `V->M->V` holds `0.5 * 0.4 * 2`. -/
theorem c10_self_loop_indirect_effect_witness :
    dictLookup (calculateIndirectEffects gVM "V" 2) ("V" ++ "->" ++ "M" ++ "->" ++ "V")
      = some ((1/2) * (2/5) * 2)
    ∧ (analyzeIntervention gVM "V" 2).total_effect
        = (analyzeIntervention gVM "V" 2).direct_effect
          + ((calculateIndirectEffects gVM "V" 2).map (fun kv => kv.2)).sum * (7/10) :=
  c10_self_loop_indirect_effect gVM "V" "M" (1/2) (2/5) 2
    ⟨⟨"V", "M", 1/2, "causal"⟩, by simp [gVM], rfl, rfl, rfl⟩
    ⟨⟨"M", "V", 2/5, "causal"⟩, by simp [gVM], rfl, rfl, rfl⟩
    (by
      intro d1 hd1 d2 hd2 h1 h2 hk
      simp only [gVM, List.mem_cons, List.not_mem_nil, or_false] at hd1 hd2
      rcases hd1 with rfl | rfl <;> rcases hd2 with rfl | rfl <;> simp_all)

end KGAgent
